import Mathlib

/-!
Verification of the expression-simplification pass (frontends/p4/simplifyExpressions.cpp).

The IR is shallowly embedded: expression and statement nodes carry a numeric
identity (standing for the C++ object identity); the TypeMap oracle is a store
keyed by those identities; the ReferenceMap fresh-name generator and fresh node
allocation share one counter.  Names (paths, members, operators) are numbers:
their content is opaque to the pass.  Cloning an IR node allocates a fresh
identity; a node returned unchanged keeps its identity.
-/

namespace SimplifyExpressions

/-- Types attached to IR nodes by the TypeMap. Only `void` is inspected by the
pass (result placement for method calls); everything else is opaque. -/
inductive Typ where
| void
| boolT
| bitT (w : Nat)
| other (k : Nat)
deriving DecidableEq, Repr

/-- Parameter directions of P4. -/
inductive Dir where
| noDir
| inDir
| outDir
| inOutDir
deriving DecidableEq, Repr

/-- Literal payloads. -/
inductive Lit where
| boolLit (b : Bool)
| numLit (n : Int)
deriving DecidableEq, Repr

/-- Unary operator tags; `lnotU` is the one the pass itself generates
(`new IR::LNot`, line 193). -/
inductive UOp where
| lnotU
| negU
| otherU (k : Nat)
deriving DecidableEq, Repr

mutual
/-- IR expressions (the kinds DismantleExpression distinguishes).  A method
call carries the external MethodCallDescription result: each argument is
paired with the direction and type of its matched parameter.  `isPure` is the
verdict of the external SideEffects analysis on the call itself. -/
inductive Expr where
| lit (nid : Nat) (v : Lit)
| path (nid : Nat) (name : Nat)
| member (nid : Nat) (e : Expr) (m : Nat)
| arrayIndex (nid : Nat) (l r : Expr)
| unary (nid : Nat) (op : UOp) (e : Expr)
| binop (nid : Nat) (op : Nat) (l r : Expr)
| land (nid : Nat) (l r : Expr)
| lor (nid : Nat) (l r : Expr)
| mux (nid : Nat) (c e1 e2 : Expr)
| call (nid : Nat) (isPure : Bool) (method : Expr) (args : Args)
| selectE (nid : Nat) (sel : Expr) (cases : List Nat)

/-- Argument list of a method call, each entry matched with its parameter's
direction and type (the MethodCallDescription substitution). -/
inductive Args where
| nil
| cons (d : Dir) (pt : Typ) (a : Expr) (rest : Args)
end

deriving instance DecidableEq for Expr
deriving instance Repr for Expr

/-- A local variable declaration produced by the pass
(IR::Declaration_Variable with no initializer). -/
structure Decl where
  name : Nat
  typ : Typ
deriving DecidableEq, Repr

/-- Output statements (IR::StatOrDecl). -/
inductive Stmt where
| assign (lhs rhs : Expr)
| methodCall (e : Expr)
| ret (e : Option Expr)
| ifS (cond : Expr) (ifTrue : Stmt) (ifFalse : Option Stmt)
| block (stmts : List Stmt)
| switchS (e : Expr) (cases : List Nat)
| declS (d : Decl)
deriving Repr

/-- The TypeMap oracle: type, left-value and compile-time-constant records,
keyed by node identity (three separate stores, as in P4::TypeMap). -/
structure TM where
  types : List (Nat × Typ)
  lvs : List Nat
  ctcs : List Nat
deriving DecidableEq, Repr

def TM.getType? (tm : TM) (i : Nat) : Option Typ :=
  tm.types.lookup i

def TM.setType (tm : TM) (i : Nat) (t : Typ) : TM :=
  { tm with types := (i, t) :: tm.types }

def TM.isLV (tm : TM) (i : Nat) : Bool :=
  tm.lvs.contains i

def TM.setLV (tm : TM) (i : Nat) : TM :=
  { tm with lvs := i :: tm.lvs }

def TM.isCTC (tm : TM) (i : Nat) : Bool :=
  tm.ctcs.contains i

def TM.setCTC (tm : TM) (i : Nat) : TM :=
  { tm with ctcs := i :: tm.ctcs }

/-- Failure modes of the pass (fatal internal diagnostics). -/
inductive Err where
| missingType (nid : Nat)
| nullResidual
| methodOnLeft (nid : Nat)
deriving DecidableEq, Repr

/-- The mutable state of one DismantleExpression traversal: the EvaluationOrder
accumulator (`temporaries`, `statements`), the fresh counter shared by the
ReferenceMap and node allocation, and the TypeMap. -/
structure St where
  temps : List Decl
  stmts : List Stmt
  ctr : Nat
  tm : TM
deriving Repr

def St.getType (st : St) (i : Nat) : Except Err Typ :=
  match st.tm.getType? i with
  | some t => .ok t
  | none => .error (.missingType i)

def St.setType (st : St) (i : Nat) (t : Typ) : St :=
  { st with tm := st.tm.setType i t }

def St.isLV (st : St) (i : Nat) : Bool :=
  st.tm.isLV i

def St.setLV (st : St) (i : Nat) : St :=
  { st with tm := st.tm.setLV i }

def St.isCTC (st : St) (i : Nat) : Bool :=
  st.tm.isCTC i

def St.setCTC (st : St) (i : Nat) : St :=
  { st with tm := st.tm.setCTC i }

/-- EvaluationOrder::createTemporary (lines 46-52): request a fresh name,
append a declaration for it, return the name. -/
def St.createTemporary (st : St) (t : Typ) : Nat × St :=
  (st.ctr, { st with ctr := st.ctr + 1, temps := st.temps ++ [⟨st.ctr, t⟩] })

/-- EvaluationOrder::addAssignment (lines 54-60): append `name := e` to the
statement stream and return a fresh clone of the left-hand path. -/
def St.addAssignment (st : St) (name : Nat) (e : Expr) : Expr × St :=
  (Expr.path (st.ctr + 1) name,
   { st with ctr := st.ctr + 2,
             stmts := st.stmts ++ [.assign (.path st.ctr name) e] })

/-- External collaborators: the TableApplySolver is abstracted as the set of
Member node identities it recognizes as the `hit` or `action_run` of a
`table.apply()`. -/
structure Env where
  applyMembers : List Nat

mutual
/-- SideEffects::check, modelled conservatively: an expression has a side
effect iff it contains a method call the external analysis does not certify
pure. -/
def sideEff : Expr → Bool
| .lit _ _ => false
| .path _ _ => false
| .member _ e _ => sideEff e
| .arrayIndex _ l r => sideEff l || sideEff r
| .unary _ _ e => sideEff e
| .binop _ _ l r => sideEff l || sideEff r
| .land _ l r => sideEff l || sideEff r
| .lor _ l r => sideEff l || sideEff r
| .mux _ c e1 e2 => sideEff c || sideEff e1 || sideEff e2
| .call _ isPure m args => !isPure || sideEff m || sideEffArgs args
| .selectE _ s _ => sideEff s

/-- Any argument of the list has a side effect (the first useTemporaries loop,
lines 267-272). -/
def sideEffArgs : Args → Bool
| .nil => false
| .cons _ _ a rest => sideEff a || sideEffArgs rest
end

/-- Any parameter has direction out or inout (the second useTemporaries loop,
lines 273-279). -/
def anyDirOut : Args → Bool
| .nil => false
| .cons d _ _ rest => (d == Dir.outDir || d == Dir.inOutDir) || anyDirOut rest

/-- Node identity of an expression. -/
def Expr.eid : Expr → Nat
| .lit i _ => i
| .path i _ => i
| .member i _ _ => i
| .arrayIndex i _ _ => i
| .unary i _ _ => i
| .binop i _ _ _ => i
| .land i _ _ => i
| .lor i _ _ => i
| .mux i _ _ _ => i
| .call i _ _ _ => i
| .selectE i _ _ => i

/-- IR clone(): same contents under a fresh identity (shallow). -/
def Expr.withId : Expr → Nat → Expr
| .lit _ v, n => .lit n v
| .path _ s, n => .path n s
| .member _ e m, n => .member n e m
| .arrayIndex _ l r, n => .arrayIndex n l r
| .unary _ op e, n => .unary n op e
| .binop _ op l r, n => .binop n op l r
| .land _ l r, n => .land n l r
| .lor _ l r, n => .lor n l r
| .mux _ c e1 e2, n => .mux n c e1 e2
| .call _ p m a, n => .call n p m a
| .selectE _ s cs, n => .selectE n s cs

mutual
/-- The DismantleExpression rewriter (lines 63-390).  `lv` and `rnu` are the
`leftValue` / `resultNotUsed` visitor flags; `ctx` tells whether the enclosing
context node is a Member that the TableApplySolver recognizes (the
`getContext()` look-up of lines 337-343, computed by the Member case when it
visits its child).  The result is the updated state together with
`EvaluationOrder::final` (`none` models a null residual). -/
def dis (env : Env) (lv rnu ctx : Bool) (e : Expr) (st : St) :
    Except Err (St × Option Expr) :=
  match e with
  | .lit i v =>
      -- preorder(Literal), lines 85-89: the literal itself is the residual.
      .ok (st, some (.lit i v))
  | .path i n =>
      -- catch-all postorder(Expression), lines 72-83: type and flags are
      -- copied onto the output node, which is the input node unchanged.
      match st.getType i with
      | .error m => .error m
      | .ok _ => .ok (st, some (.path i n))
  | .member i sub mem =>
      -- preorder(Member), lines 111-123, plus postorder(Member), lines
      -- 239-248; the child is visited with this Member as its context.
      match st.getType i with
      | .error m => .error m
      | .ok t =>
        match dis env lv rnu (env.applyMembers.contains i) sub st with
        | .error m => .error m
        | .ok (_, none) => .error .nullResidual
        | .ok (st1, some left) =>
          let nid := st1.ctr
          let st2 := St.setType { st1 with ctr := st1.ctr + 1 } nid t
          let st3 := if lv then st2.setLV nid else st2
          let st4 := if st3.isLV i then st3.setLV nid else st3
          let st5 := if st4.isCTC i then st4.setCTC i else st4
          .ok (st5, some (.member nid left mem))
  | .arrayIndex i l r =>
      -- preorder(ArrayIndex), lines 91-109: the index is visited with
      -- leftValue saved and set to false.
      match st.getType i with
      | .error m => .error m
      | .ok t =>
        match dis env lv rnu false l st with
        | .error m => .error m
        | .ok (_, none) => .error .nullResidual
        | .ok (st1, some left) =>
          match dis env false rnu false r st1 with
          | .error m => .error m
          | .ok (_, none) => .error .nullResidual
          | .ok (st2, some right) =>
            let nid := st2.ctr
            let st3 := St.setType { st2 with ctr := st2.ctr + 1 } nid t
            let st4 := if lv then st3.setLV nid else st3
            .ok (st4, some (.arrayIndex nid left right))
  | .unary i op sub =>
      -- preorder(Operation_Unary), lines 133-145: the operand is visited
      -- with the current leftValue flag (the source does not reset it).
      match st.getType i with
      | .error m => .error m
      | .ok t =>
        match dis env lv rnu false sub st with
        | .error m => .error m
        | .ok (_, none) => .error .nullResidual
        | .ok (st1, some left) =>
          let nid := st1.ctr
          let st2 := St.setType { st1 with ctr := st1.ctr + 1 } nid t
          .ok (st2, some (.unary nid op left))
  | .binop i op l r =>
      -- preorder(Operation_Binary), lines 147-165: rebuild, then hoist into
      -- a fresh temporary.
      match st.getType i with
      | .error m => .error m
      | .ok t =>
        match dis env lv rnu false l st with
        | .error m => .error m
        | .ok (_, none) => .error .nullResidual
        | .ok (st1, some left) =>
          match dis env lv rnu false r st1 with
          | .error m => .error m
          | .ok (_, none) => .error .nullResidual
          | .ok (st2, some right) =>
            let nid := st2.ctr
            let st3 := St.setType { st2 with ctr := st2.ctr + 1 } nid t
            let (tn, st4) := st3.createTemporary t
            let (p, st5) := st4.addAssignment tn (.binop nid op left right)
            .ok (st5.setType p.eid t, some p)
  | .land i l r =>
      -- shortCircuit, lines 167-204, with constant = BoolLiteral(false) and
      -- the condition negated.
      match st.getType i with
      | .error m => .error m
      | .ok t =>
        match dis env lv rnu false l st with
        | .error m => .error m
        | .ok (_, none) => .error .nullResidual
        | .ok (st1, some cond) =>
          let bid := st1.ctr
          let (tn, stB) := St.createTemporary { st1 with ctr := st1.ctr + 1 } t
          let pid := stB.ctr
          let stC := { stB with ctr := stB.ctr + 1 }
          let ifTrueS := Stmt.assign (.path pid tn) (.lit bid (.boolLit false))
          let save := stC.stmts
          match dis env lv rnu false r { stC with stmts := [] } with
          | .error m => .error m
          | .ok (_, none) => .error .nullResidual
          | .ok (st2, some rres) =>
            let (_, stE) := st2.addAssignment tn rres
            let ifFalseStmts := stE.stmts
            let nid := stE.ctr
            let stG := St.setType { stE with stmts := save, ctr := stE.ctr + 1 } nid t
            let stH := { stG with
              stmts := stG.stmts ++
                [Stmt.ifS (Expr.unary nid UOp.lnotU cond) ifTrueS
                  (some (Stmt.block ifFalseStmts))] }
            let fid := stH.ctr
            let stI := St.setType { stH with ctr := stH.ctr + 1 } fid t
            .ok (stI, some (.path fid tn))
  | .lor i l r =>
      -- shortCircuit, lines 167-204, with constant = BoolLiteral(true) and
      -- the condition used unchanged.
      match st.getType i with
      | .error m => .error m
      | .ok t =>
        match dis env lv rnu false l st with
        | .error m => .error m
        | .ok (_, none) => .error .nullResidual
        | .ok (st1, some cond) =>
          let bid := st1.ctr
          let (tn, stB) := St.createTemporary { st1 with ctr := st1.ctr + 1 } t
          let pid := stB.ctr
          let stC := { stB with ctr := stB.ctr + 1 }
          let ifTrueS := Stmt.assign (.path pid tn) (.lit bid (.boolLit true))
          let save := stC.stmts
          match dis env lv rnu false r { stC with stmts := [] } with
          | .error m => .error m
          | .ok (_, none) => .error .nullResidual
          | .ok (st2, some rres) =>
            let (_, stE) := st2.addAssignment tn rres
            let ifFalseStmts := stE.stmts
            let stF := { stE with
              stmts := save ++
                [Stmt.ifS cond ifTrueS (some (Stmt.block ifFalseStmts))] }
            let fid := stF.ctr
            let stG := St.setType { stF with ctr := stF.ctr + 1 } fid t
            .ok (stG, some (.path fid tn))
  | .mux i c e1 e2 =>
      -- preorder(Mux), lines 206-234.
      match st.getType i with
      | .error m => .error m
      | .ok t =>
        match dis env lv rnu false c st with
        | .error m => .error m
        | .ok (_, none) => .error .nullResidual
        | .ok (st0, some e0) =>
          let (tn, stA) := st0.createTemporary t
          let save := stA.stmts
          match dis env lv rnu false e1 { stA with stmts := [] } with
          | .error m => .error m
          | .ok (_, none) => .error .nullResidual
          | .ok (st1, some r1) =>
            let (_, stB) := st1.addAssignment tn r1
            let ifTrueStmts := stB.stmts
            match dis env lv rnu false e2 { stB with stmts := [] } with
            | .error m => .error m
            | .ok (_, none) => .error .nullResidual
            | .ok (st2, some r2) =>
              let (_, stC) := st2.addAssignment tn r2
              let ifFalseStmts := stC.stmts
              let stD := { stC with
                stmts := save ++
                  [Stmt.ifS e0 (Stmt.block ifTrueStmts)
                    (some (Stmt.block ifFalseStmts))] }
              let fid := stD.ctr
              let stE := St.setType { stD with ctr := stD.ctr + 1 } fid t
              .ok (stE, some (.path fid tn))
  | .call i isPure method pairs =>
      -- preorder(MethodCallExpression), lines 250-373.
      if lv then .error (.methodOnLeft i)
      else
        match st.getType i with
        | .error m => .error m
        | .ok t =>
          if !sideEff (.call i isPure method pairs) then
            -- lines 255-258: a call with no side effects is left unchanged.
            .ok (st, some (.call i isPure method pairs))
          else
            let ut := sideEffArgs pairs || anyDirOut pairs
            match dis env false false false method st with
            | .error m => .error m
            | .ok (_, none) => .error .nullResidual
            | .ok (stM, some m2) =>
              match disArgs env ut pairs stM with
              | .error m => .error m
              | .ok (stA, pairs2, cb) =>
                let cid := stA.ctr
                let simplified := Expr.call cid isPure m2 pairs2
                let stB := St.setType { stA with ctr := stA.ctr + 1 } cid t
                if (t != Typ.void) && !ctx && !rnu then
                  -- lines 347-361: hoist the result into a fresh temporary.
                  let (tn, stC) := stB.createTemporary t
                  let (p, stD) := stC.addAssignment tn simplified
                  let stE := St.setType stD p.eid t
                  .ok ({ stE with stmts := stE.stmts ++ cb }, some p)
                else if ctx then
                  -- lines 363-364: table.apply().hit / .action_run context.
                  .ok ({ stB with stmts := stB.stmts ++ cb }, some simplified)
                else
                  -- lines 365-368: standalone method-call statement.
                  .ok ({ stB with
                          stmts := stB.stmts ++ [Stmt.methodCall simplified] ++ cb },
                       none)
  | .selectE i sel cs =>
      -- preorder(SelectExpression), lines 125-131: the selector is
      -- dismantled in place, cases are untouched.
      match dis env lv rnu false sel st with
      | .error m => .error m
      | .ok (_, none) => .error .nullResidual
      | .ok (st1, some sel2) => .ok (st1, some (.selectE i sel2 cs))

/-- The per-parameter argument loop of preorder(MethodCallExpression), lines
284-329.  `ut` is useTemporaries; the result is the rewritten argument list
(with parameter data) and the queued copy-back assignments, in processing
order. -/
def disArgs (env : Env) (ut : Bool) (pairs : Args) (st : St) :
    Except Err (St × Args × List Stmt) :=
  match pairs with
  | .nil => .ok (st, .nil, [])
  | .cons d pt a rest =>
      if d == Dir.noDir then
        -- lines 286-289: a none-direction argument is passed unchanged.
        match disArgs env ut rest st with
        | .error m => .error m
        | .ok (st1, rest2, cb) => .ok (st1, .cons d pt a rest2, cb)
      else
        -- lines 291-299: leftValue := (direction is not In), then dismantle.
        match dis env (d != Dir.inDir) false false a st with
        | .error m => .error m
        | .ok (_, none) => .error .nullResidual
        | .ok (st1, some newarg) =>
          let avs :=
            if ut && !(st1.isCTC newarg.eid) then
              -- lines 302-318: fresh temporary passed for the argument, with
              -- a copy-in assignment unless the direction is out.
              let tn := st1.ctr
              let argValue := Expr.path (st1.ctr + 1) tn
              let stB := { st1 with ctr := st1.ctr + 2,
                                    temps := st1.temps ++ [⟨tn, pt⟩] }
              if d != Dir.outDir then
                let clid := stB.ctr
                let stC := { stB with
                  ctr := stB.ctr + 1,
                  stmts := stB.stmts ++ [Stmt.assign (Expr.path clid tn) newarg] }
                (argValue, (stC.setType clid pt).setLV clid)
              else (argValue, stB)
            else (newarg, st1)
          let cbs :=
            if (d != Dir.inDir) && ut && (newarg != a) then
              -- lines 322-327: queue the copy-back `newarg := argValue`.
              ([Stmt.assign newarg (avs.1.withId avs.2.ctr)],
               { avs.2 with ctr := avs.2.ctr + 1 })
            else ([], avs.2)
          match disArgs env ut rest cbs.2 with
          | .error m => .error m
          | .ok (st4, rest2, cbRest) =>
            .ok (st4, .cons d pt avs.1 rest2, cbs.1 ++ cbRest)
end

/-- The per-scope state of DoSimplifyExpressions: the pending-declarations
buffer `toInsert`, plus the shared fresh counter and TypeMap. -/
structure PassState where
  toInsert : List Decl
  ctr : Nat
  tm : TM
deriving Repr

/-- A fresh DismantleExpression starts from an empty EvaluationOrder but
shares the ReferenceMap counter and the TypeMap. -/
def initSt (ps : PassState) : St :=
  { temps := [], stmts := [], ctr := ps.ctr, tm := ps.tm }

/-- Pass state after a dismantling whose temporaries were NOT spliced (the
simple case): the buffer is untouched, the shared oracles keep their updates. -/
def psKeep (ps : PassState) (st : St) : PassState :=
  { toInsert := ps.toInsert, ctr := st.ctr, tm := st.tm }

/-- Pass state after `toInsert.append(parts->temporaries)`. -/
def psSplice (ps : PassState) (st : St) : PassState :=
  { toInsert := ps.toInsert ++ st.temps, ctr := st.ctr, tm := st.tm }

/-- The statement-level rewrites of DoSimplifyExpressions (lines 455-521),
dispatching on the statement kind as the Transform does on node types. -/
def simplifyStatement (env : Env) (ps : PassState) (s : Stmt) :
    Except Err (PassState × Stmt) :=
  match s with
  | .assign lhs rhs =>
      -- postorder(AssignmentStatement), lines 455-467: one dismantler is
      -- used for both sides; the result is always wrapped in a block.
      match dis env true false false lhs (initSt ps) with
      | .error m => .error m
      | .ok (_, none) => .error .nullResidual
      | .ok (stL, some left) =>
        match dis env false false false rhs stL with
        | .error m => .error m
        | .ok (_, none) => .error .nullResidual
        | .ok (stR, some right) =>
          .ok (psSplice ps stR,
               .block (stR.stmts ++ [.assign left right]))
  | .methodCall e =>
      -- postorder(MethodCallStatement), lines 469-478.
      match dis env false true false e (initSt ps) with
      | .error m => .error m
      | .ok (st1, _) =>
        if st1.temps.isEmpty && st1.stmts.isEmpty then
          .ok (psKeep ps st1, .methodCall e)
        else .ok (psSplice ps st1, .block st1.stmts)
  | .ret none =>
      -- postorder(ReturnStatement), lines 481-482.
      .ok (ps, .ret none)
  | .ret (some e) =>
      -- postorder(ReturnStatement), lines 480-493.
      match dis env false false false e (initSt ps) with
      | .error m => .error m
      | .ok (st1, r) =>
        if st1.temps.isEmpty && st1.stmts.isEmpty then
          .ok (psKeep ps st1, .ret (some e))
        else
          .ok (psSplice ps st1, .block (st1.stmts ++ [.ret r]))
  | .ifS c tBr fBr =>
      -- postorder(IfStatement), lines 495-507.
      match dis env false false false c (initSt ps) with
      | .error m => .error m
      | .ok (st1, r) =>
        if st1.temps.isEmpty && st1.stmts.isEmpty then
          .ok (psKeep ps st1, .ifS c tBr fBr)
        else
          match r with
          | none => .error .nullResidual
          | some expr =>
            .ok (psSplice ps st1, .block (st1.stmts ++ [.ifS expr tBr fBr]))
  | .switchS e cs =>
      -- postorder(SwitchStatement), lines 509-521.
      match dis env false false false e (initSt ps) with
      | .error m => .error m
      | .ok (st1, r) =>
        if st1.temps.isEmpty && st1.stmts.isEmpty then
          .ok (psKeep ps st1, .switchS e cs)
        else
          match r with
          | none => .error .nullResidual
          | some expr =>
            .ok (psSplice ps st1, .block (st1.stmts ++ [.switchS expr cs]))
  | .block ss => .ok (ps, .block ss)
  | .declS d => .ok (ps, .declS d)

/-- A parser state: sequential components and an optional select expression. -/
structure ParserState where
  components : List Stmt
  selectExpression : Option Expr

/-- postorder(ParserState), lines 439-453. -/
def simplifyParserState (env : Env) (ps : PassState) (state : ParserState) :
    Except Err (PassState × ParserState) :=
  match state.selectExpression with
  | none => .ok (ps, state)
  | some sel =>
      match dis env false false false sel (initSt ps) with
      | .error m => .error m
      | .ok (st1, r) =>
        if st1.temps.isEmpty && st1.stmts.isEmpty then
          .ok (psKeep ps st1, state)
        else
          .ok (psSplice ps st1,
               { components := state.components ++ st1.stmts,
                 selectExpression := r })

/-- postorder(Function), lines 393-404: pending declarations become a prologue
of the body; the buffer is cleared.  Returns (new buffer, new body). -/
def postorderFunction (toInsert : List Decl) (body : List Stmt) :
    List Decl × List Stmt :=
  if toInsert.isEmpty then (toInsert, body)
  else ([], toInsert.map Stmt.declS ++ body)

/-- postorder(P4Parser), lines 406-414: `locals->append(toInsert)` after a
copy of the existing parser locals; the buffer is cleared. -/
def postorderP4Parser (toInsert : List Decl) (parserLocals : List Decl) :
    List Decl × List Decl :=
  if toInsert.isEmpty then (toInsert, parserLocals)
  else ([], parserLocals ++ toInsert)

/-- postorder(P4Control), lines 416-424: same append for control locals. -/
def postorderP4Control (toInsert : List Decl) (controlLocals : List Decl) :
    List Decl × List Decl :=
  if toInsert.isEmpty then (toInsert, controlLocals)
  else ([], controlLocals ++ toInsert)

/-- postorder(P4Action), lines 426-437: pending declarations become a prologue
of the action body; the buffer is cleared. -/
def postorderP4Action (toInsert : List Decl) (body : List Stmt) :
    List Decl × List Stmt :=
  if toInsert.isEmpty then (toInsert, body)
  else ([], toInsert.map Stmt.declS ++ body)

/-- Expression slot, leftValue flag and resultNotUsed flag that the statement
rewriter hands to the Dismantler, for the statement kinds that have a simple
check (everything but assignments). -/
def stmtSlot : Stmt → Option (Expr × Bool × Bool)
| .methodCall e => some (e, false, true)
| .ret (some e) => some (e, false, false)
| .ifS c _ _ => some (c, false, false)
| .switchS e _ => some (e, false, false)
| _ => none

/-- State of the dismantler right after processing one non-noDir parameter
whose argument newarg is not a compile-time constant, with useTemporaries
true: the fresh temporary of the parameter type is declared, and unless the
direction is out a copy-in assignment is emitted (lines 302-318); a further
identity is consumed by the copy-back clone when one is queued (line 324). -/
def afterArgTemp (d : Dir) (pt : Typ) (a newarg : Expr) (st1 : St) : St :=
  let stB : St := { st1 with ctr := st1.ctr + 2,
                             temps := st1.temps ++ [⟨st1.ctr, pt⟩] }
  let stC : St :=
    if d != Dir.outDir then
      St.setLV
        (St.setType
          { stB with
              ctr := stB.ctr + 1,
              stmts := stB.stmts ++ [Stmt.assign (Expr.path stB.ctr st1.ctr) newarg] }
          stB.ctr pt)
        stB.ctr
    else stB
  if (d != Dir.inDir) && (newarg != a) then { stC with ctr := stC.ctr + 1 }
  else stC




/-! Helper lemmas. -/

theorem temps_setType (st : St) (i : Nat) (t : Typ) :
    (st.setType i t).temps = st.temps := rfl

theorem temps_setLV (st : St) (i : Nat) : (st.setLV i).temps = st.temps := rfl

theorem temps_setCTC (st : St) (i : Nat) : (st.setCTC i).temps = st.temps := rfl

set_option maxHeartbeats 4000000 in
/-- Auxiliary: along any successful dismantling, the temporaries list of the
state only grows by appending (joint statement for dis and disArgs, proved by
their mutual functional induction). -/
theorem tempsExtendAux (env : Env) :
    (∀ (lv rnu ctx : Bool) (e : Expr) (st : St),
       ∀ (st2 : St) (r : Option Expr),
         dis env lv rnu ctx e st = .ok (st2, r) → ∃ d, st2.temps = st.temps ++ d) ∧
    (∀ (ut : Bool) (pairs : Args) (st : St),
       ∀ (st2 : St) (aa : Args) (cb : List Stmt),
         disArgs env ut pairs st = .ok (st2, aa, cb) → ∃ d, st2.temps = st.temps ++ d) := by
  apply dis.mutual_induct env
  case case1 =>
    intro lv rnu ctx st i v st2 r h
    simp only [dis, Except.ok.injEq, Prod.mk.injEq] at h
    obtain ⟨h1, -⟩ := h
    subst h1
    exact ⟨[], by simp⟩
  case case3 =>
    intro lv rnu ctx st i n t hT st2 r h
    simp only [dis, hT, Except.ok.injEq, Prod.mk.injEq] at h
    obtain ⟨h1, -⟩ := h
    subst h1
    exact ⟨[], by simp⟩
  case case7 =>
    intro lv rnu ctx st i sub mem t hT st1 left hSub ih st2 r h
    obtain ⟨d1, hd1⟩ := ih _ _ hSub
    simp only [dis, hT, hSub, Except.ok.injEq, Prod.mk.injEq] at h
    obtain ⟨h1, -⟩ := h
    subst h1
    refine ⟨d1, ?_⟩
    simp only [temps_setType, temps_setLV, temps_setCTC, apply_ite St.temps, ite_self]
    exact hd1
  case case13 =>
    intro lv rnu ctx st i l r t hT st1 left hL st1x right hR ih1 ih2 st2 r2 h
    obtain ⟨d1, hd1⟩ := ih1 _ _ hL
    obtain ⟨d2, hd2⟩ := ih2 _ _ hR
    simp only [dis, hT, hL, hR, Except.ok.injEq, Prod.mk.injEq] at h
    obtain ⟨h1, -⟩ := h
    subst h1
    refine ⟨d1 ++ d2, ?_⟩
    simp only [temps_setType, temps_setLV, temps_setCTC, apply_ite St.temps, ite_self]
    rw [hd2, hd1, List.append_assoc]
  case case17 =>
    intro lv rnu ctx st i op sub t hT st1 left hSub ih st2 r h
    obtain ⟨d1, hd1⟩ := ih _ _ hSub
    simp only [dis, hT, hSub, Except.ok.injEq, Prod.mk.injEq] at h
    obtain ⟨h1, -⟩ := h
    subst h1
    exact ⟨d1, by simp only [temps_setType]; exact hd1⟩
  case case23 =>
    intro lv rnu ctx st i op l r t hT st1 left hL st1x right hR nid st3 tn st4
      hCT p st5 hAA ih1 ih2 st2 r2 h
    obtain ⟨d1, hd1⟩ := ih1 _ _ hL
    obtain ⟨d2, hd2⟩ := ih2 _ _ hR
    simp only [dis, hT, hL, hR, St.setType, St.createTemporary, St.addAssignment,
               Except.ok.injEq, Prod.mk.injEq] at h
    obtain ⟨h1, -⟩ := h
    subst h1
    refine ⟨d1 ++ (d2 ++ [⟨st1x.ctr + 1, t⟩]), ?_⟩
    simp only [Expr.eid]
    rw [hd2, hd1]
    simp [List.append_assoc]
  case case29 =>
    intro lv rnu ctx st i l r t hT st1 cond hL tn st4 hCT stC st2x rres hR p st5
      hAA ih1 ih2 st2 r2 h
    obtain ⟨d1, hd1⟩ := ih1 _ _ hL
    simp only [St.createTemporary, Prod.mk.injEq] at hCT
    obtain ⟨-, hst4⟩ := hCT
    subst hst4
    have hR2 : dis env lv rnu false r
        { temps := st1.temps ++ [⟨st1.ctr + 1, t⟩], stmts := [],
          ctr := st1.ctr + 1 + 1 + 1, tm := st1.tm } = Except.ok (st2x, some rres) := hR
    obtain ⟨d2, hd2⟩ := ih2 _ _ hR
    have hd2x : st2x.temps = (st1.temps ++ [⟨st1.ctr + 1, t⟩]) ++ d2 := hd2
    simp only [dis, hT, hL, hR2, St.setType, St.createTemporary, St.addAssignment,
               Except.ok.injEq, Prod.mk.injEq] at h
    obtain ⟨h1, -⟩ := h
    subst h1
    refine ⟨d1 ++ ([⟨st1.ctr + 1, t⟩] ++ d2), ?_⟩
    rw [hd2x, hd1]
    simp [List.append_assoc]
  case case35 =>
    intro lv rnu ctx st i l r t hT st1 cond hL tn st4 hCT stC st2x rres hR p st5
      hAA ih1 ih2 st2 r2 h
    obtain ⟨d1, hd1⟩ := ih1 _ _ hL
    simp only [St.createTemporary, Prod.mk.injEq] at hCT
    obtain ⟨-, hst4⟩ := hCT
    subst hst4
    have hR2 : dis env lv rnu false r
        { temps := st1.temps ++ [⟨st1.ctr + 1, t⟩], stmts := [],
          ctr := st1.ctr + 1 + 1 + 1, tm := st1.tm } = Except.ok (st2x, some rres) := hR
    obtain ⟨d2, hd2⟩ := ih2 _ _ hR
    have hd2x : st2x.temps = (st1.temps ++ [⟨st1.ctr + 1, t⟩]) ++ d2 := hd2
    simp only [dis, hT, hL, hR2, St.setType, St.createTemporary, St.addAssignment,
               Except.ok.injEq, Prod.mk.injEq] at h
    obtain ⟨h1, -⟩ := h
    subst h1
    refine ⟨d1 ++ ([⟨st1.ctr + 1, t⟩] ++ d2), ?_⟩
    rw [hd2x, hd1]
    simp [List.append_assoc]
  case case43 =>
    intro lv rnu ctx st i c e1 e2 t hT st0 e0 hC tn st4 hCT st1x r1 hE1 p st5 hAA
      st2x r2x hE2 p2 st6 hAA2 ih1 ih2 ih3 st2 r2 h
    obtain ⟨d1, hd1⟩ := ih1 _ _ hC
    simp only [St.createTemporary, Prod.mk.injEq] at hCT
    obtain ⟨-, hst4⟩ := hCT
    subst hst4
    have hE1x : dis env lv rnu false e1
        { temps := st0.temps ++ [⟨st0.ctr, t⟩], stmts := [],
          ctr := st0.ctr + 1, tm := st0.tm } = Except.ok (st1x, some r1) := hE1
    obtain ⟨d2, hd2⟩ := ih2 _ _ hE1
    have hd2x : st1x.temps = (st0.temps ++ [⟨st0.ctr, t⟩]) ++ d2 := hd2
    simp only [St.addAssignment, Prod.mk.injEq] at hAA
    obtain ⟨-, hst5⟩ := hAA
    subst hst5
    have hE2x : dis env lv rnu false e2
        { temps := st1x.temps, stmts := [],
          ctr := st1x.ctr + 2, tm := st1x.tm } = Except.ok (st2x, some r2x) := hE2
    obtain ⟨d3, hd3⟩ := ih3 _ _ hE2
    have hd3x : st2x.temps = st1x.temps ++ d3 := hd3
    simp only [dis, hT, hC, hE1x, hE2x, St.setType, St.createTemporary,
               St.addAssignment, Except.ok.injEq, Prod.mk.injEq] at h
    obtain ⟨h1, -⟩ := h
    subst h1
    refine ⟨d1 ++ ([⟨st0.ctr, t⟩] ++ (d2 ++ d3)), ?_⟩
    rw [hd3x, hd2x, hd1]
    simp [List.append_assoc]
  case case46 =>
    intro lv rnu ctx st i ip method pairs hlv t hT hpure st2 r h
    simp only [Bool.not_eq_true] at hlv
    subst hlv
    simp only [dis, hT, hpure, if_true, if_false, Bool.false_eq_true,
               Except.ok.injEq, Prod.mk.injEq] at h
    obtain ⟨h1, -⟩ := h
    subst h1
    exact ⟨[], by simp⟩
  case case50 =>
    intro lv rnu ctx st i ip method pairs hlv t hT hse ut stM m2 hM stA pairs2 cb
      hArgs cid simplified stB hcond tn st4 hCT p st5 hAA ih1 ih2 st2 r h
    simp only [Bool.not_eq_true] at hlv hse
    subst hlv
    obtain ⟨dM, hdM⟩ := ih1 _ _ hM
    obtain ⟨dA, hdA⟩ := ih2 _ _ _ hArgs
    have hArgs2 : disArgs env (sideEffArgs pairs || anyDirOut pairs) pairs stM =
        Except.ok (stA, pairs2, cb) := hArgs
    simp only [dis, hT, hse, hM, hArgs2, hcond, St.setType, St.createTemporary,
               St.addAssignment, Bool.false_eq_true, if_false,
               eq_self_iff_true, if_true, Except.ok.injEq, Prod.mk.injEq] at h
    obtain ⟨h1, -⟩ := h
    subst h1
    refine ⟨dM ++ (dA ++ [⟨stA.ctr + 1, t⟩]), ?_⟩
    rw [hdA, hdM]
    simp [List.append_assoc]
  case case51 =>
    intro lv rnu st i ip method pairs hlv t hT hse ut stM m2 hM stA pairs2 cb
      hArgs hcond ih1 ih2 st2 r h
    simp only [Bool.not_eq_true] at hlv hse hcond
    subst hlv
    obtain ⟨dM, hdM⟩ := ih1 _ _ hM
    obtain ⟨dA, hdA⟩ := ih2 _ _ _ hArgs
    have hArgs2 : disArgs env (sideEffArgs pairs || anyDirOut pairs) pairs stM =
        Except.ok (stA, pairs2, cb) := hArgs
    simp only [dis, hT, hse, hM, hArgs2, hcond, St.setType, Bool.false_eq_true,
               if_false, eq_self_iff_true, if_true, Except.ok.injEq,
               Prod.mk.injEq] at h
    obtain ⟨h1, -⟩ := h
    subst h1
    refine ⟨dM ++ dA, ?_⟩
    rw [hdA, hdM]
    simp [List.append_assoc]
  case case52 =>
    intro lv rnu ctx st i ip method pairs hlv t hT hse ut stM m2 hM stA pairs2 cb
      hArgs hcond hctx ih1 ih2 st2 r h
    simp only [Bool.not_eq_true] at hlv hse hcond hctx
    subst hlv
    subst hctx
    obtain ⟨dM, hdM⟩ := ih1 _ _ hM
    obtain ⟨dA, hdA⟩ := ih2 _ _ _ hArgs
    have hArgs2 : disArgs env (sideEffArgs pairs || anyDirOut pairs) pairs stM =
        Except.ok (stA, pairs2, cb) := hArgs
    simp only [dis, hT, hse, hM, hArgs2, hcond, St.setType, Bool.false_eq_true,
               if_false, eq_self_iff_true, if_true, Except.ok.injEq,
               Prod.mk.injEq] at h
    obtain ⟨h1, -⟩ := h
    subst h1
    refine ⟨dM ++ dA, ?_⟩
    rw [hdA, hdM]
    simp [List.append_assoc]
  case case55 =>
    intro lv rnu ctx st i sel cs st1 left hSel ih st2 r h
    obtain ⟨d1, hd1⟩ := ih _ _ hSel
    simp only [dis, hSel, Except.ok.injEq, Prod.mk.injEq] at h
    obtain ⟨h1, -⟩ := h
    subst h1
    exact ⟨d1, hd1⟩
  case case56 =>
    intro ut st st2 aa cb h
    simp only [disArgs, Except.ok.injEq, Prod.mk.injEq] at h
    obtain ⟨h1, -⟩ := h
    subst h1
    exact ⟨[], by simp⟩
  case case58 =>
    intro ut st d pt a rest hEq stA pairs2 cb hRest ih st2 aa cb2 h
    obtain ⟨dR, hdR⟩ := ih _ _ _ hRest
    simp only [disArgs, hEq, hRest, if_true, Except.ok.injEq, Prod.mk.injEq] at h
    obtain ⟨h1, -⟩ := h
    subst h1
    exact ⟨dR, hdR⟩
  case case62 =>
    intro ut st d pt a rest hne st1 newarg hA avs cbs stA pairs2 cb hRest ih1 ih2
      st2 aa cb2 h
    obtain ⟨d1, hd1⟩ := ih1 _ _ hA
    obtain ⟨d2, hd2⟩ := ih2 _ _ _ hRest
    simp only [Bool.not_eq_true] at hne
    have key : ∃ dd, cbs.2.temps = st1.temps ++ dd := by
      unfold cbs avs
      repeat' split
      all_goals first
        | exact ⟨[⟨st1.ctr, pt⟩], rfl⟩
        | exact ⟨[], (List.append_nil _).symm⟩
    obtain ⟨dd, hdd⟩ := key
    unfold cbs avs at hRest
    simp only [] at hRest
    simp only [dis, disArgs, hne, hA, hRest, Bool.false_eq_true, if_false,
               Except.ok.injEq, Prod.mk.injEq] at h
    obtain ⟨h1, -⟩ := h
    subst h1
    refine ⟨d1 ++ (dd ++ d2), ?_⟩
    rw [hd2, hdd, hd1]
    simp [List.append_assoc]
  all_goals
    intros
    rename_i h
    simp only [dis, disArgs, *] at h
    exact (Except.noConfusion h)


/-! Claim theorems. -/

/-- C9: a method-call expression visited while the leftValue flag is true
makes the pass abort with a fatal internal diagnostic naming the offending
call node (the BUG_CHECK of line 251), producing no rewritten output. -/
theorem c9_method_call_left_value (env : Env) (i : Nat) (isPure : Bool)
    (method : Expr) (pairs : Args) (rnu ctx : Bool) (st : St) :
    dis env true rnu ctx (.call i isPure method pairs) st =
      .error (.methodOnLeft i) := by
  simp [dis]

/-- C10: every temporary declared during a dismantling invocation lands in the
single outer temporaries list: for any successful run of the Dismantler the
final temporaries list extends the initial one by appending, even though the
statements stream is swapped out and restored for short-circuit and mux
branches (only the statements pointer is redirected, never the temporaries
list). -/
theorem c10_temporaries_outer_list (env : Env) (lv rnu ctx : Bool) (e : Expr)
    (st st2 : St) (r : Option Expr)
    (h : dis env lv rnu ctx e st = .ok (st2, r)) :
    ∃ d, st2.temps = st.temps ++ d :=
  (tempsExtendAux env).1 lv rnu ctx e st st2 r h

/-- Witness for C10 at a concrete input: dismantling the binary operation
`1 + 2` (node 5, type bit<8>) from counter 10 hoists it into temporary 11,
and the temporaries list of the result extends the (empty) initial one. -/
theorem c10_temporaries_outer_list_witness :
    ∃ d, ([⟨11, Typ.bitT 8⟩] : List Decl) = [] ++ d :=
  c10_temporaries_outer_list ⟨[]⟩ false false false
    (.binop 5 0 (.lit 3 (.numLit 1)) (.lit 4 (.numLit 2)))
    ⟨[], [], 10, ⟨[(5, Typ.bitT 8)], [], []⟩⟩ _ _ rfl

/-- C7 (code bug evaluation): dismantling the member `x.f` (node 1, recorded
both compile-time-constant and left-value in the TypeMap) produces the
rewritten member node 10; the code re-marks the ORIGINAL node 1 compile-time
constant (ctcs becomes [1, 1]) and leaves node 10 unmarked, while the
left-value flag IS carried to node 10 (lvs contains 10). -/
theorem c7_member_ctc_on_original :
    dis ⟨[]⟩ false false false (.member 1 (.path 0 50) 9)
        ⟨[], [], 10, ⟨[(0, Typ.other 3), (1, Typ.bitT 4)], [1], [1]⟩⟩ =
      .ok (⟨[], [], 11,
            ⟨[(10, Typ.bitT 4), (0, Typ.other 3), (1, Typ.bitT 4)],
             [10, 1], [1, 1]⟩⟩,
           some (.member 10 (.path 0 50) 9)) ∧
    TM.isCTC ⟨[(10, Typ.bitT 4), (0, Typ.other 3), (1, Typ.bitT 4)],
              [10, 1], [1, 1]⟩ 10 = false ∧
    TM.isLV ⟨[(10, Typ.bitT 4), (0, Typ.other 3), (1, Typ.bitT 4)],
             [10, 1], [1, 1]⟩ 10 = true :=
  ⟨rfl, rfl, rfl⟩

/-- C6 counterexample: the claim says pending declarations are PREPENDED to a
parser scope local-declaration list; the code appends them after the
pre-existing locals. -/
theorem c6_counterexample :
    postorderP4Parser [⟨1, Typ.boolT⟩] [⟨0, Typ.boolT⟩] =
      ([], [⟨0, Typ.boolT⟩, ⟨1, Typ.boolT⟩]) ∧
    ([⟨0, Typ.boolT⟩, ⟨1, Typ.boolT⟩] : List Decl) ≠
      [⟨1, Typ.boolT⟩, ⟨0, Typ.boolT⟩] :=
  ⟨rfl, by decide⟩

/-- C6 (amended): at a scope boundary with a non-empty pending-declarations
buffer, parsers and controls APPEND the buffer contents after their existing
local declarations, while actions and functions place them at the beginning
of the body block; the buffer is cleared in every case. -/
theorem c6_scope_splice (ti locals : List Decl) (body : List Stmt)
    (h : ti.isEmpty = false) :
    postorderP4Parser ti locals = ([], locals ++ ti) ∧
    postorderP4Control ti locals = ([], locals ++ ti) ∧
    postorderP4Action ti body = ([], ti.map Stmt.declS ++ body) ∧
    postorderFunction ti body = ([], ti.map Stmt.declS ++ body) := by
  simp [postorderP4Parser, postorderP4Control, postorderP4Action,
        postorderFunction, h]

/-- Witness for C6 at a concrete input. -/
theorem c6_scope_splice_witness :
    ([⟨1, Typ.boolT⟩] : List Decl).isEmpty = false ∧
    (postorderP4Parser [⟨1, Typ.boolT⟩] [⟨0, Typ.boolT⟩] =
       ([], [⟨0, Typ.boolT⟩, ⟨1, Typ.boolT⟩]) ∧
     postorderP4Control [⟨1, Typ.boolT⟩] [⟨0, Typ.boolT⟩] =
       ([], [⟨0, Typ.boolT⟩, ⟨1, Typ.boolT⟩]) ∧
     postorderP4Action [⟨1, Typ.boolT⟩] [] =
       ([], [Stmt.declS ⟨1, Typ.boolT⟩]) ∧
     postorderFunction [⟨1, Typ.boolT⟩] [] =
       ([], [Stmt.declS ⟨1, Typ.boolT⟩])) :=
  ⟨rfl, c6_scope_splice [⟨1, Typ.boolT⟩] [⟨0, Typ.boolT⟩] [] rfl⟩

/-- C8 counterexample: the claim says the operand of a unary operation is
dismantled with leftValue = false regardless of the flag the unary was
entered with.  Dismantling `-(x.m)` with leftValue = true propagates the
true flag into the member operand: the rewritten member node 10 is marked
left-value in the TypeMap (lvs contains 10), which the claimed rule would
never do (the original member carries no left-value flag). -/
theorem c8_counterexample :
    dis ⟨[]⟩ true false false (.unary 2 .negU (.member 1 (.path 0 50) 7))
        ⟨[], [], 10, ⟨[(0, Typ.other 3), (1, Typ.bitT 8), (2, Typ.bitT 8)],
                      [], []⟩⟩ =
      .ok (⟨[], [], 12,
            ⟨[(11, Typ.bitT 8), (10, Typ.bitT 8), (0, Typ.other 3),
              (1, Typ.bitT 8), (2, Typ.bitT 8)], [10], []⟩⟩,
           some (.unary 11 .negU (.member 10 (.path 0 50) 7))) ∧
    TM.isLV ⟨[(11, Typ.bitT 8), (10, Typ.bitT 8), (0, Typ.other 3),
              (1, Typ.bitT 8), (2, Typ.bitT 8)], [10], []⟩ 10 = true :=
  ⟨rfl, rfl⟩

/-- C8 (amended): the operand of a unary operation is dismantled with the
SAME leftValue flag the unary expression was entered with (the source does
not reset it; in well-typed programs that flag is false because unary
expressions never occupy left-value positions), and the residual is the
rebuilt unary node over the operand residual, typed like the original. -/
theorem c8_unary_operand_flag (env : Env) (i : Nat) (op : UOp) (sub : Expr)
    (lv rnu ctx : Bool) (st st1 : St) (t : Typ) (r : Expr)
    (ht : st.getType i = .ok t)
    (hsub : dis env lv rnu false sub st = .ok (st1, some r)) :
    dis env lv rnu ctx (.unary i op sub) st =
      .ok (St.setType { st1 with ctr := st1.ctr + 1 } st1.ctr t,
           some (.unary st1.ctr op r)) := by
  simp only [dis, ht, hsub]

/-- Witness for C8 at a concrete input (entered with leftValue = true). -/
theorem c8_unary_operand_flag_witness :
    St.getType ⟨[], [], 10, ⟨[(0, Typ.other 3), (2, Typ.bitT 8)], [], []⟩⟩ 2 =
      .ok (Typ.bitT 8) ∧
    dis ⟨[]⟩ true false false (.path 0 50)
        ⟨[], [], 10, ⟨[(0, Typ.other 3), (2, Typ.bitT 8)], [], []⟩⟩ =
      .ok (⟨[], [], 10, ⟨[(0, Typ.other 3), (2, Typ.bitT 8)], [], []⟩⟩,
           some (.path 0 50)) ∧
    dis ⟨[]⟩ true false false (.unary 2 .negU (.path 0 50))
        ⟨[], [], 10, ⟨[(0, Typ.other 3), (2, Typ.bitT 8)], [], []⟩⟩ =
      .ok (⟨[], [], 11, ⟨[(10, Typ.bitT 8), (0, Typ.other 3), (2, Typ.bitT 8)],
                         [], []⟩⟩,
           some (.unary 10 .negU (.path 0 50))) :=
  ⟨rfl, rfl,
   c8_unary_operand_flag ⟨[]⟩ 2 .negU (.path 0 50) true false false
     ⟨[], [], 10, ⟨[(0, Typ.other 3), (2, Typ.bitT 8)], [], []⟩⟩
     ⟨[], [], 10, ⟨[(0, Typ.other 3), (2, Typ.bitT 8)], [], []⟩⟩
     (Typ.bitT 8) (.path 0 50) rfl rfl⟩

/-- C5 counterexample: postorder(AssignmentStatement) has no simple() check:
rewriting the trivial assignment `x := true`, whose two dismantlings produce
no declarations and no statements, still returns a fresh block containing the
reassembled assignment instead of the statement unchanged. -/
theorem c5_counterexample :
    simplifyStatement ⟨[]⟩ ⟨[], 5, ⟨[(0, Typ.boolT)], [0], []⟩⟩
        (.assign (.path 0 60) (.lit 3 (.boolLit true))) =
      .ok (⟨[], 5, ⟨[(0, Typ.boolT)], [0], []⟩⟩,
           .block [.assign (.path 0 60) (.lit 3 (.boolLit true))]) ∧
    Stmt.block [.assign (.path 0 60) (.lit 3 (.boolLit true))] ≠
      Stmt.assign (.path 0 60) (.lit 3 (.boolLit true)) :=
  ⟨rfl, by simp⟩

/-- C3 counterexample: the claim gives the void/resultNotUsed case precedence
over the table-apply case.  Dismantling `t.apply().hit` where the member
(node 1) is recognized by the TableApplySolver and the side-effecting call
(node 2) has type void, the code emits NO standalone method-call statement
and the call residual is the rewritten call itself (threaded through the
member), not empty as the claim demands for a void call. -/
theorem c3_counterexample :
    dis ⟨[1]⟩ false false false
        (.member 1 (.call 2 false (.path 3 77) .nil) 88)
        ⟨[], [], 10, ⟨[(1, Typ.boolT), (2, Typ.void), (3, Typ.other 9)],
                      [], []⟩⟩ =
      .ok (⟨[], [], 12,
            ⟨[(11, Typ.boolT), (10, Typ.void), (1, Typ.boolT), (2, Typ.void),
              (3, Typ.other 9)], [], []⟩⟩,
           some (.member 11 (.call 10 false (.path 3 77) .nil) 88)) ∧
    ([] : List Stmt) = [] ∧
    some (Expr.member 11 (.call 10 false (.path 3 77) .nil) 88) ≠
      (none : Option Expr) :=
  ⟨rfl, rfl, by simp⟩

/-- C1: dismantling a short-circuit expression `e1 && e2` (isAnd = true) or
`e1 || e2` (isAnd = false) in any context first dismantles e1 into the
current statement stream, creates a fresh boolean temporary t (name
st1.ctr + 1), and emits into the enclosing stream an if-statement whose
condition is the negation of e1's residual for `&&` and e1's residual
unchanged for `||`, whose true branch is the single assignment `t := K`
(K = false for `&&`, K = true for `||`), and whose false branch is a block
holding exactly the statements produced by dismantling e2 into a fresh
stream followed by `t := residual(e2)`; the residual of the whole expression
is a fresh path expression referring to t. -/
theorem c1_short_circuit (env : Env) (i : Nat) (e1 e2 : Expr)
    (isAnd lv rnu ctx : Bool) (st st1 st2 : St) (c r2 : Expr)
    (ht : st.getType i = .ok Typ.boolT)
    (h1 : dis env lv rnu false e1 st = .ok (st1, some c))
    (h2 : dis env lv rnu false e2
        { temps := st1.temps ++ [⟨st1.ctr + 1, Typ.boolT⟩], stmts := [],
          ctr := st1.ctr + 3, tm := st1.tm } = .ok (st2, some r2)) :
    dis env lv rnu ctx (if isAnd then Expr.land i e1 e2 else Expr.lor i e1 e2)
        st =
      .ok (if isAnd then
        ({ temps := st2.temps,
           stmts := st1.stmts ++
             [Stmt.ifS (Expr.unary (st2.ctr + 2) UOp.lnotU c)
               (Stmt.assign (Expr.path (st1.ctr + 2) (st1.ctr + 1))
                 (Expr.lit st1.ctr (Lit.boolLit false)))
               (some (Stmt.block (st2.stmts ++
                 [Stmt.assign (Expr.path st2.ctr (st1.ctr + 1)) r2])))],
           ctr := st2.ctr + 4,
           tm := (st2.tm.setType (st2.ctr + 2) Typ.boolT).setType
             (st2.ctr + 3) Typ.boolT },
         some (.path (st2.ctr + 3) (st1.ctr + 1)))
      else
        ({ temps := st2.temps,
           stmts := st1.stmts ++
             [Stmt.ifS c
               (Stmt.assign (Expr.path (st1.ctr + 2) (st1.ctr + 1))
                 (Expr.lit st1.ctr (Lit.boolLit true)))
               (some (Stmt.block (st2.stmts ++
                 [Stmt.assign (Expr.path st2.ctr (st1.ctr + 1)) r2])))],
           ctr := st2.ctr + 3,
           tm := st2.tm.setType (st2.ctr + 2) Typ.boolT },
         some (.path (st2.ctr + 2) (st1.ctr + 1)))) := by
  have h2x : dis env lv rnu false e2
      { temps := st1.temps ++ [⟨st1.ctr + 1, Typ.boolT⟩], stmts := [],
        ctr := st1.ctr + 1 + 1 + 1, tm := st1.tm } = .ok (st2, some r2) := h2
  cases isAnd with
  | false =>
      simp only [Bool.false_eq_true, if_false]
      simp only [dis, St.createTemporary, St.addAssignment, St.setType, ht, h1,
                 h2x]
  | true =>
      simp only [if_true]
      simp only [dis, St.createTemporary, St.addAssignment, St.setType, ht, h1,
                 h2x]

/-- Witness for C1 at a concrete input: `p0 && p1` with boolean paths. -/
theorem c1_short_circuit_witness :
    St.getType ⟨[], [], 20, ⟨[(9, Typ.boolT), (0, Typ.boolT), (1, Typ.boolT)],
                             [], []⟩⟩ 9 = .ok Typ.boolT ∧
    dis ⟨[]⟩ false false false (.land 9 (.path 0 10) (.path 1 11))
        ⟨[], [], 20, ⟨[(9, Typ.boolT), (0, Typ.boolT), (1, Typ.boolT)],
                      [], []⟩⟩ =
      .ok (⟨[⟨21, Typ.boolT⟩],
            [Stmt.ifS (Expr.unary 25 UOp.lnotU (Expr.path 0 10))
              (Stmt.assign (Expr.path 22 21) (Expr.lit 20 (Lit.boolLit false)))
              (some (Stmt.block [Stmt.assign (Expr.path 23 21)
                (Expr.path 1 11)]))],
            27,
            ⟨[(26, Typ.boolT), (25, Typ.boolT), (9, Typ.boolT), (0, Typ.boolT),
              (1, Typ.boolT)], [], []⟩⟩,
           some (.path 26 21)) :=
  ⟨rfl,
   c1_short_circuit ⟨[]⟩ 9 (.path 0 10) (.path 1 11) true false false false
     ⟨[], [], 20, ⟨[(9, Typ.boolT), (0, Typ.boolT), (1, Typ.boolT)], [], []⟩⟩
     ⟨[], [], 20, ⟨[(9, Typ.boolT), (0, Typ.boolT), (1, Typ.boolT)], [], []⟩⟩
     ⟨[⟨21, Typ.boolT⟩], [], 23,
      ⟨[(9, Typ.boolT), (0, Typ.boolT), (1, Typ.boolT)], [], []⟩⟩
     (.path 0 10) (.path 1 11) rfl rfl rfl⟩

/-- C4: dismantling a mux `c ? e1 : e2` dismantles the condition into the
current stream, creates a fresh temporary t of the mux type, dismantles e1
and e2 each into its own fresh statement stream ending with an assignment of
its residual to t, and emits an if-statement with the condition residual,
the e1-stream block as true branch and the e2-stream block as false branch;
the residual is a fresh path to t. -/
theorem c4_mux (env : Env) (i : Nat) (c e1 e2 : Expr) (lv rnu ctx : Bool)
    (st st0 st1 st2 : St) (c0 r1 r2 : Expr) (t : Typ)
    (ht : st.getType i = .ok t)
    (h0 : dis env lv rnu false c st = .ok (st0, some c0))
    (h1 : dis env lv rnu false e1
        { temps := st0.temps ++ [⟨st0.ctr, t⟩], stmts := [],
          ctr := st0.ctr + 1, tm := st0.tm } = .ok (st1, some r1))
    (h2 : dis env lv rnu false e2
        { temps := st1.temps, stmts := [], ctr := st1.ctr + 2,
          tm := st1.tm } = .ok (st2, some r2)) :
    dis env lv rnu ctx (.mux i c e1 e2) st =
      .ok ({ temps := st2.temps,
             stmts := st0.stmts ++
               [Stmt.ifS c0
                 (Stmt.block (st1.stmts ++
                   [Stmt.assign (Expr.path st1.ctr st0.ctr) r1]))
                 (some (Stmt.block (st2.stmts ++
                   [Stmt.assign (Expr.path st2.ctr st0.ctr) r2])))],
             ctr := st2.ctr + 3,
             tm := st2.tm.setType (st2.ctr + 2) t },
           some (.path (st2.ctr + 2) st0.ctr)) := by
  simp only [dis, St.createTemporary, St.addAssignment, St.setType, ht, h0, h1,
             h2]

/-- Witness for C4 at a concrete input: `p0 ? p1 : p2`. -/
theorem c4_mux_witness :
    St.getType ⟨[], [], 20, ⟨[(9, Typ.bitT 4), (0, Typ.boolT), (1, Typ.bitT 4),
                              (2, Typ.bitT 4)], [], []⟩⟩ 9 = .ok (Typ.bitT 4) ∧
    dis ⟨[]⟩ false false false (.mux 9 (.path 0 10) (.path 1 11) (.path 2 12))
        ⟨[], [], 20, ⟨[(9, Typ.bitT 4), (0, Typ.boolT), (1, Typ.bitT 4),
                       (2, Typ.bitT 4)], [], []⟩⟩ =
      .ok (⟨[⟨20, Typ.bitT 4⟩],
            [Stmt.ifS (Expr.path 0 10)
              (Stmt.block [Stmt.assign (Expr.path 21 20) (Expr.path 1 11)])
              (some (Stmt.block [Stmt.assign (Expr.path 23 20)
                (Expr.path 2 12)]))],
            26,
            ⟨[(25, Typ.bitT 4), (9, Typ.bitT 4), (0, Typ.boolT),
              (1, Typ.bitT 4), (2, Typ.bitT 4)], [], []⟩⟩,
           some (.path 25 20)) :=
  ⟨rfl,
   c4_mux ⟨[]⟩ 9 (.path 0 10) (.path 1 11) (.path 2 12) false false false
     ⟨[], [], 20, ⟨[(9, Typ.bitT 4), (0, Typ.boolT), (1, Typ.bitT 4),
                    (2, Typ.bitT 4)], [], []⟩⟩
     ⟨[], [], 20, ⟨[(9, Typ.bitT 4), (0, Typ.boolT), (1, Typ.bitT 4),
                    (2, Typ.bitT 4)], [], []⟩⟩
     ⟨[⟨20, Typ.bitT 4⟩], [], 21,
      ⟨[(9, Typ.bitT 4), (0, Typ.boolT), (1, Typ.bitT 4), (2, Typ.bitT 4)],
       [], []⟩⟩
     ⟨[⟨20, Typ.bitT 4⟩], [], 23,
      ⟨[(9, Typ.bitT 4), (0, Typ.boolT), (1, Typ.bitT 4), (2, Typ.bitT 4)],
       [], []⟩⟩
     (.path 0 10) (.path 1 11) (.path 2 12) (Typ.bitT 4) rfl rfl rfl rfl⟩

/-- C5 (amended): for the statement kinds with a simple() check — method-call
statement, return, if, switch, and parser-state select — a dismantling that
produces no declarations and no statements leaves the statement unchanged
(only the shared counter and TypeMap advance); assignment statements have no
such check and are always wrapped in a block (see the counterexample). -/
theorem c5_simple_unchanged (env : Env) (ps : PassState) (s : Stmt)
    (e : Expr) (lvf rnuf : Bool) (st1 : St) (r : Option Expr)
    (e2 : Expr) (st2 : St) (r2 : Option Expr) (comps : List Stmt)
    (h0 : stmtSlot s = some (e, lvf, rnuf))
    (h1 : dis env lvf rnuf false e (initSt ps) = .ok (st1, r))
    (hs1 : st1.temps.isEmpty = true) (hs2 : st1.stmts.isEmpty = true)
    (h2 : dis env false false false e2 (initSt ps) = .ok (st2, r2))
    (hs3 : st2.temps.isEmpty = true) (hs4 : st2.stmts.isEmpty = true) :
    simplifyStatement env ps s = .ok (psKeep ps st1, s) ∧
    simplifyParserState env ps ⟨comps, some e2⟩ =
      .ok (psKeep ps st2, ⟨comps, some e2⟩) := by
  constructor
  · cases s with
    | assign l rr => simp [stmtSlot] at h0
    | methodCall e3 =>
        simp only [stmtSlot, Option.some.injEq, Prod.mk.injEq] at h0
        obtain ⟨rfl, rfl, rfl⟩ := h0
        simp only [simplifyStatement, h1, hs1, hs2, Bool.and_self,
                   eq_self_iff_true, if_true]
    | ret oe =>
        cases oe with
        | none => simp [stmtSlot] at h0
        | some e3 =>
            simp only [stmtSlot, Option.some.injEq, Prod.mk.injEq] at h0
            obtain ⟨rfl, rfl, rfl⟩ := h0
            simp only [simplifyStatement, h1, hs1, hs2, Bool.and_self,
                       eq_self_iff_true, if_true]
    | ifS c tb fb =>
        simp only [stmtSlot, Option.some.injEq, Prod.mk.injEq] at h0
        obtain ⟨rfl, rfl, rfl⟩ := h0
        simp only [simplifyStatement, h1, hs1, hs2, Bool.and_self,
                   eq_self_iff_true, if_true]
    | switchS e3 cs =>
        simp only [stmtSlot, Option.some.injEq, Prod.mk.injEq] at h0
        obtain ⟨rfl, rfl, rfl⟩ := h0
        simp only [simplifyStatement, h1, hs1, hs2, Bool.and_self,
                   eq_self_iff_true, if_true]
    | block ss => simp [stmtSlot] at h0
    | declS dd => simp [stmtSlot] at h0
  · simp only [simplifyParserState, h2, hs3, hs4, Bool.and_self,
               eq_self_iff_true, if_true]

/-- Witness for C5 at a concrete input: the statement `if (p0) {}` and a
parser state selecting on `p0`, both of whose dismantlings are simple. -/
theorem c5_simple_unchanged_witness :
    stmtSlot (.ifS (.path 0 60) (.block []) none) =
      some (Expr.path 0 60, false, false) ∧
    (simplifyStatement ⟨[]⟩ ⟨[], 5, ⟨[(0, Typ.boolT)], [0], []⟩⟩
        (.ifS (.path 0 60) (.block []) none) =
      .ok (⟨[], 5, ⟨[(0, Typ.boolT)], [0], []⟩⟩,
           .ifS (.path 0 60) (.block []) none) ∧
     simplifyParserState ⟨[]⟩ ⟨[], 5, ⟨[(0, Typ.boolT)], [0], []⟩⟩
        ⟨[], some (.path 0 60)⟩ =
      .ok (⟨[], 5, ⟨[(0, Typ.boolT)], [0], []⟩⟩, ⟨[], some (.path 0 60)⟩)) :=
  ⟨rfl,
   c5_simple_unchanged ⟨[]⟩ ⟨[], 5, ⟨[(0, Typ.boolT)], [0], []⟩⟩
     (.ifS (.path 0 60) (.block []) none) (.path 0 60) false false
     ⟨[], [], 5, ⟨[(0, Typ.boolT)], [0], []⟩⟩ (some (.path 0 60))
     (.path 0 60) ⟨[], [], 5, ⟨[(0, Typ.boolT)], [0], []⟩⟩
     (some (.path 0 60)) []
     rfl rfl rfl rfl rfl rfl rfl⟩

/-- C3 (amended): result placement for a dismantled side-effecting method
call, with the table-apply recognition taking precedence (lines 347-369): if
the enclosing context is a Member recognized as the `hit` or `action_run` of
a `table.apply()`, no temporary is allocated and the residual is the
rewritten call itself; otherwise, if the call type is void or resultNotUsed
was passed, the rewritten call is emitted as a standalone method-call
statement and the residual is empty; otherwise a fresh temporary t of the
call type is declared, `t := call` is emitted, and the residual is a fresh
path to t.  In every case the queued copy-backs are appended after the call.
The useTemporaries flag handed to the argument loop is (some argument has
side effects) OR (some parameter has direction out or inout). -/
theorem c3_result_placement (env : Env) (i : Nat) (isPure : Bool)
    (method : Expr) (pairs : Args) (rnu ctx : Bool) (st stM stA : St)
    (t : Typ) (m2 : Expr) (pairs2 : Args) (cb : List Stmt)
    (hse : sideEff (.call i isPure method pairs) = true)
    (ht : st.getType i = .ok t)
    (hm : dis env false false false method st = .ok (stM, some m2))
    (ha : disArgs env (sideEffArgs pairs || anyDirOut pairs) pairs stM =
      .ok (stA, pairs2, cb)) :
    dis env false rnu ctx (.call i isPure method pairs) st =
      (if ctx then
        .ok ({ temps := stA.temps, stmts := stA.stmts ++ cb,
               ctr := stA.ctr + 1, tm := stA.tm.setType stA.ctr t },
             some (.call stA.ctr isPure m2 pairs2))
      else if (t == Typ.void) || rnu then
        .ok ({ temps := stA.temps,
               stmts := stA.stmts ++
                 [Stmt.methodCall (.call stA.ctr isPure m2 pairs2)] ++ cb,
               ctr := stA.ctr + 1, tm := stA.tm.setType stA.ctr t },
             none)
      else
        .ok ({ temps := stA.temps ++ [⟨stA.ctr + 1, t⟩],
               stmts := stA.stmts ++
                 [Stmt.assign (Expr.path (stA.ctr + 2) (stA.ctr + 1))
                   (.call stA.ctr isPure m2 pairs2)] ++ cb,
               ctr := stA.ctr + 4,
               tm := (stA.tm.setType stA.ctr t).setType (stA.ctr + 3) t },
             some (.path (stA.ctr + 3) (stA.ctr + 1)))) := by
  cases ctx <;> cases rnu <;> by_cases hv : t = Typ.void <;>
    simp only [dis, hse, ht, hm, ha, hv, St.setType, St.createTemporary,
      St.addAssignment, Expr.eid, Bool.not_true, Bool.not_false,
      Bool.false_eq_true, Bool.true_eq_false, if_false, if_true,
      eq_self_iff_true, Bool.and_true, Bool.and_false, Bool.true_and,
      Bool.false_and, Bool.or_true, Bool.or_false, Bool.false_or,
      Bool.true_or, bne_self_eq_false, beq_self_eq_true, beq_iff_eq,
      bne_iff_ne, ne_eq, not_false_eq_true, not_true_eq_false,
      Option.some.injEq]

/-- Witness for C3 at a concrete input: a side-effecting nullary call of type
bit<8>, not in a table-apply context and with the result used, is hoisted
into temporary 11. -/
theorem c3_result_placement_witness :
    sideEff (.call 2 false (.path 3 77) .nil) = true ∧
    dis ⟨[]⟩ false false false (.call 2 false (.path 3 77) .nil)
        ⟨[], [], 10, ⟨[(2, Typ.bitT 8), (3, Typ.other 9)], [], []⟩⟩ =
      .ok (⟨[⟨11, Typ.bitT 8⟩],
            [Stmt.assign (Expr.path 12 11)
              (Expr.call 10 false (Expr.path 3 77) .nil)],
            14,
            ⟨[(13, Typ.bitT 8), (10, Typ.bitT 8), (2, Typ.bitT 8),
              (3, Typ.other 9)], [], []⟩⟩,
           some (.path 13 11)) :=
  ⟨rfl,
   c3_result_placement ⟨[]⟩ 2 false (.path 3 77) .nil false false
     ⟨[], [], 10, ⟨[(2, Typ.bitT 8), (3, Typ.other 9)], [], []⟩⟩
     ⟨[], [], 10, ⟨[(2, Typ.bitT 8), (3, Typ.other 9)], [], []⟩⟩
     ⟨[], [], 10, ⟨[(2, Typ.bitT 8), (3, Typ.other 9)], [], []⟩⟩
     (Typ.bitT 8) (.path 3 77) .nil []
     rfl rfl rfl rfl⟩


/-- C2: per-parameter argument handling of a dismantled side-effecting call
(lines 284-329), for a parameter of direction in, out or inout whose
dismantled argument newarg is not a compile-time constant, with
useTemporaries true: a fresh temporary (name st1.ctr) of the parameter type
is declared and a fresh path to it is passed as the argument; if the
direction is not out, the assignment `t := newarg` is emitted into the
statement stream before the call; if the direction is out or inout and
newarg differs from the original argument, the copy-back `newarg := t` is
queued; and the queued copy-backs of the remaining parameters follow in
processing order. -/
theorem c2_argument_processing (env : Env) (d : Dir) (pt : Typ) (a : Expr)
    (rest : Args) (st st1 st2 : St) (newarg : Expr) (rest2 : Args)
    (cbRest : List Stmt)
    (hd : d ≠ Dir.noDir)
    (ha : dis env (d != Dir.inDir) false false a st = .ok (st1, some newarg))
    (hctc : st1.isCTC newarg.eid = false)
    (hrest : disArgs env true rest (afterArgTemp d pt a newarg st1) =
      .ok (st2, rest2, cbRest)) :
    disArgs env true (.cons d pt a rest) st =
      .ok (st2,
           .cons d pt (.path (st1.ctr + 1) st1.ctr) rest2,
           (if (d != Dir.inDir) && (newarg != a) then
              [Stmt.assign newarg
                (.path (if d != Dir.outDir then st1.ctr + 3 else st1.ctr + 2)
                  st1.ctr)]
            else []) ++ cbRest) := by
  cases d with
  | noDir => exact absurd rfl hd
  | inDir =>
      have e1 : (Dir.inDir == Dir.noDir) = false := rfl
      have e2 : (Dir.inDir != Dir.inDir) = false := rfl
      have e3 : (Dir.inDir != Dir.outDir) = true := rfl
      have ha2 : dis env false false false a st = .ok (st1, some newarg) := ha
      simp only [afterArgTemp, e2, e3, Bool.false_and, Bool.false_eq_true,
                 if_false, if_true, eq_self_iff_true,
                 St.setType, St.setLV, TM.setType, TM.setLV] at hrest
      simp only [disArgs, e1, e2, e3, ha2, hctc, Bool.false_eq_true, if_false,
                 if_true, eq_self_iff_true, Bool.true_and, Bool.false_and,
                 Bool.not_false, St.setType, St.setLV, TM.setType, TM.setLV,
                 Expr.withId, hrest]
  | outDir =>
      have e1 : (Dir.outDir == Dir.noDir) = false := rfl
      have e2 : (Dir.outDir != Dir.inDir) = true := rfl
      have e3 : (Dir.outDir != Dir.outDir) = false := rfl
      have ha2 : dis env true false false a st = .ok (st1, some newarg) := ha
      by_cases hna : (newarg != a) = true
      · simp only [afterArgTemp, e2, e3, hna, Bool.true_and, Bool.false_eq_true,
                   if_false, if_true, eq_self_iff_true,
                   St.setType, St.setLV, TM.setType, TM.setLV] at hrest
        simp only [disArgs, e1, e2, e3, ha2, hctc, hna, Bool.false_eq_true,
                   if_false, if_true, eq_self_iff_true, Bool.true_and,
                   Bool.not_false, St.setType, St.setLV, TM.setType, TM.setLV,
                   Expr.withId, hrest]
      · simp only [Bool.not_eq_true] at hna
        simp only [afterArgTemp, e2, e3, hna, Bool.true_and, Bool.false_eq_true,
                   if_false, if_true, eq_self_iff_true,
                   St.setType, St.setLV, TM.setType, TM.setLV] at hrest
        simp only [disArgs, e1, e2, e3, ha2, hctc, hna, Bool.false_eq_true,
                   if_false, if_true, eq_self_iff_true, Bool.true_and,
                   Bool.not_false, St.setType, St.setLV, TM.setType, TM.setLV,
                   Expr.withId, hrest]
  | inOutDir =>
      have e1 : (Dir.inOutDir == Dir.noDir) = false := rfl
      have e2 : (Dir.inOutDir != Dir.inDir) = true := rfl
      have e3 : (Dir.inOutDir != Dir.outDir) = true := rfl
      have ha2 : dis env true false false a st = .ok (st1, some newarg) := ha
      by_cases hna : (newarg != a) = true
      · simp only [afterArgTemp, e2, e3, hna, Bool.true_and, Bool.false_eq_true,
                   if_false, if_true, eq_self_iff_true,
                   St.setType, St.setLV, TM.setType, TM.setLV] at hrest
        simp only [disArgs, e1, e2, e3, ha2, hctc, hna, Bool.false_eq_true,
                   if_false, if_true, eq_self_iff_true, Bool.true_and,
                   Bool.not_false, St.setType, St.setLV, TM.setType, TM.setLV,
                   Expr.withId, hrest]
      · simp only [Bool.not_eq_true] at hna
        simp only [afterArgTemp, e2, e3, hna, Bool.true_and, Bool.false_eq_true,
                   if_false, if_true, eq_self_iff_true,
                   St.setType, St.setLV, TM.setType, TM.setLV] at hrest
        simp only [disArgs, e1, e2, e3, ha2, hctc, hna, Bool.false_eq_true,
                   if_false, if_true, eq_self_iff_true, Bool.true_and,
                   Bool.not_false, St.setType, St.setLV, TM.setType, TM.setLV,
                   Expr.withId, hrest]
/-- Witness for C2 at a concrete input: an inout parameter of type bit<8>
whose argument `x.f` is rewritten (node 6 becomes node 20): temporary 21 is
declared and passed as path 22, the copy-in `t := x.f` precedes the call and
the copy-back `x.f := t` is queued. -/
theorem c2_argument_processing_witness :
    (Dir.inOutDir ≠ Dir.noDir) ∧
    disArgs ⟨[]⟩ true
        (.cons .inOutDir (.bitT 8) (.member 6 (.path 7 300) 5) .nil)
        ⟨[], [], 20, ⟨[(6, Typ.bitT 8), (7, Typ.other 2)], [7], []⟩⟩ =
      .ok (⟨[⟨21, Typ.bitT 8⟩],
            [Stmt.assign (Expr.path 23 21)
              (Expr.member 20 (Expr.path 7 300) 5)],
            25,
            ⟨[(23, Typ.bitT 8), (20, Typ.bitT 8), (6, Typ.bitT 8),
              (7, Typ.other 2)], [23, 20, 7], []⟩⟩,
           .cons .inOutDir (.bitT 8) (.path 22 21) .nil,
           [Stmt.assign (Expr.member 20 (Expr.path 7 300) 5)
             (Expr.path 24 21)]) :=
  ⟨by decide,
   c2_argument_processing ⟨[]⟩ .inOutDir (.bitT 8)
     (.member 6 (.path 7 300) 5) .nil
     ⟨[], [], 20, ⟨[(6, Typ.bitT 8), (7, Typ.other 2)], [7], []⟩⟩
     ⟨[], [], 21, ⟨[(20, Typ.bitT 8), (6, Typ.bitT 8), (7, Typ.other 2)],
                   [20, 7], []⟩⟩
     ⟨[⟨21, Typ.bitT 8⟩],
      [Stmt.assign (Expr.path 23 21) (Expr.member 20 (Expr.path 7 300) 5)],
      25,
      ⟨[(23, Typ.bitT 8), (20, Typ.bitT 8), (6, Typ.bitT 8),
        (7, Typ.other 2)], [23, 20, 7], []⟩⟩
     (.member 20 (.path 7 300) 5) .nil []
     (by decide) rfl rfl rfl⟩

end SimplifyExpressions


